import Mathlib

/-!
Verification of the upload engine in `worker/upload.go` (renterd).

The embedding is shallow: host public keys, contract ids and Merkle roots
are modeled as `Nat` (0 stands for the zero value `types.Hash256{}` /
`types.FileContractID{}`), Go maps keyed by small sets are modeled as
association lists, and the `uint64` counters of `slabUpload` are modeled as
`Nat` (every subtraction the code performs is shown, via the state
invariant, not to underflow; the one place where wrap-around is
semantically relevant, `canOverdrive`, is modeled with explicit mod-2^64
arithmetic).  Wall-clock time does not influence any of the verified
claims except through timer guards, which are modeled nondeterministically
(a timer may fire whenever its counter guards hold, since enough time may
always have elapsed).
-/

namespace Renterd

/-- The constant `rhpv2.SectorSize` (4 MiB). -/
def sectorSize : Nat := 4194304

/-- The modulus `2^64` of Go's `uint64` arithmetic. -/
def U64 : Nat := 2 ^ 64

/-- Go's `math.MaxInt` on a 64-bit platform. -/
def maxInt : Nat := 2 ^ 63 - 1

/-- Model of `object.Sector` — the uploaded record stored in `sectorUpload.uploaded`:
Merkle root, latest host, and the single-entry contracts map
`{req.hk: {req.fcid}}` the code installs on success.  The zero value (all
fields 0) is the Go zero value the record starts with. -/
structure Sector where
  root : Nat
  latestHost : Nat
  fcid : Nat
deriving DecidableEq, Repr

/-- The zero `object.Sector`. -/
def Sector.zero : Sector := ⟨0, 0, 0⟩

/-- Model of `sectorUpload.isUploaded`: the record's root differs from the zero hash. -/
def Sector.isUploaded (sec : Sector) : Bool := sec.root != 0

/-- An `uploader` as seen by `slabUpload.launch`: its host key and the
contract id `uploader.enqueue` stamps onto a request. -/
structure Uploader where
  hk : Nat
  fcid : Nat
deriving DecidableEq, Repr

/-- Model of `sectorUploadReq` — `overdrive` flag, the sector's shard index, and the
`hk`/`fcid` fields set by the uploader that accepts the request. -/
structure Req where
  overdrive : Bool
  index : Nat
  hk : Nat
  fcid : Nat
deriving DecidableEq, Repr

/-- Insert a key into a Go map-as-set modeled as a duplicate-free list. -/
def insertHost (h : Nat) (l : List Nat) : List Nat :=
  if h ∈ l then l else l ++ [h]

/-- Lookup in the `overdriving` map (`map[int]map[types.PublicKey]struct{}`):
the set of hosts registered as overdriving a shard index. -/
def odLookup (m : List (Nat × List Nat)) (i : Nat) : List Nat :=
  match m.find? (fun p => p.1 == i) with
  | some p => p.2
  | none => []

/-- Insert a host into the `overdriving` set of a shard index (creating the
inner map when absent, as `slabUpload.launch` does). -/
def odInsert (m : List (Nat × List Nat)) (i : Nat) (h : Nat) : List (Nat × List Nat) :=
  if m.any (fun p => p.1 == i) then
    m.map (fun p => if p.1 == i then (p.1, insertHost h p.2) else p)
  else
    m ++ [(i, [h])]

/-- Update-or-insert into the `errs` host-error map (`HostErrorSet`). -/
def errsInsert (m : List (Nat × Nat)) (hk e : Nat) : List (Nat × Nat) :=
  if m.any (fun p => p.1 == hk) then
    m.map (fun p => if p.1 == hk then (p.1, e) else p)
  else
    m ++ [(hk, e)]

/-- The `slabUpload` state.  `shards` is `len(s.shards)`; `sectors` holds
each shard index's `uploaded` record (position `i` is index `i`, mirroring
the `s.sectors` map whose keys are `0 .. len(shards)-1`).  `toLaunch` is
the ghost list of shard indices whose initial non-overdrive request
`uploadShards` has not launched yet, `inflight` the ghost list of requests
launched but not yet answered, `numFailed` / `numDup` ghost counters of
failed and duplicate-success responses received, and `halted` a ghost flag
set when the collect loop of `uploadShards` exits through its
`break // fail the upload` statement. -/
structure SlabUpload where
  shards : Nat
  maxOverdrive : Nat
  candidates : List Uploader
  toLaunch : List Nat
  sectors : List Sector
  inflight : List Req
  numInflight : Nat
  numLaunched : Nat
  numUploaded : Nat
  numOverdriving : Nat
  numFailed : Nat
  numDup : Nat
  overdriving : List (Nat × List Nat)
  used : List Nat
  errs : List (Nat × Nat)
  halted : Bool
deriving DecidableEq, Repr

/-- The uploaded record of shard index `i` (zero record out of range). -/
def SlabUpload.secAt (s : SlabUpload) (i : Nat) : Sector :=
  s.sectors.getD i Sector.zero

/-- The candidate scan of `slabUpload.launch`: the first uploader in
`s.candidates` (sorted by estimate) whose host is not in `s.used`. -/
def pickCandidate (s : SlabUpload) : Option Uploader :=
  s.candidates.find? (fun c => !(s.used.contains c.hk))

/-- The error of `slabUpload.launch` when no candidate is free. -/
inductive UploadErr where
  | noCandidateUploader
deriving DecidableEq, Repr

/-- Model of `slabUpload.launch`: pick the first unused candidate; with none, leave
the state unchanged and report `errNoCandidateUploader` together with the
interrupt flag `!req.overdrive && len(s.overdriving[req.sector.index]) == 0`;
otherwise stamp the request with the candidate's `hk`/`fcid` (done by
`uploader.enqueue`), bump `numInflight`/`numLaunched`, mark the host used,
and for an overdrive request bump `numOverdriving` and register the host
under the request's index in `overdriving`. -/
def launch (s : SlabUpload) (req : Req) : SlabUpload × Bool × Option UploadErr :=
  match pickCandidate s with
  | none =>
      (s, !req.overdrive && ((odLookup s.overdriving req.index).length == 0),
        some .noCandidateUploader)
  | some c =>
      let d : Req := { req with hk := c.hk, fcid := c.fcid }
      ({ s with
          numInflight := s.numInflight + 1
          numLaunched := s.numLaunched + 1
          used := insertHost c.hk s.used
          inflight := d :: s.inflight
          numOverdriving := if req.overdrive then s.numOverdriving + 1 else s.numOverdriving
          overdriving :=
            if req.overdrive then odInsert s.overdriving req.index c.hk else s.overdriving },
        false, none)

/-- The common prefix of `slabUpload.receive`: decrement `numOverdriving`
for an overdrive request, decrement `numInflight`, and (ghost) retire the
request from the in-flight list. -/
def receiveAcct (s : SlabUpload) (req : Req) : SlabUpload :=
  { s with
      numOverdriving := if req.overdrive then s.numOverdriving - 1 else s.numOverdriving
      numInflight := s.numInflight - 1
      inflight := s.inflight.erase req }

/-- Model of `slabUpload.receive` on a failed response: record the host's error. -/
def receiveFail (s : SlabUpload) (req : Req) (e : Nat) : SlabUpload :=
  let s1 := receiveAcct s req
  { s1 with errs := errsInsert s1.errs req.hk e, numFailed := s1.numFailed + 1 }

/-- Model of `slabUpload.receive` on a successful response: a redundant success (the
index already has a non-zero uploaded root) changes nothing further;
otherwise install the uploaded record `{root, req.hk, {req.fcid}}`, bump
`numUploaded`, and free every host overdriving this index from `used`
(memory release and shard-buffer zeroing are not modeled — no claim
mentions them).  Returns the `numUploaded == len(s.shards)` completion
flag the code returns. -/
def receiveSuccess (s : SlabUpload) (req : Req) (root : Nat) : SlabUpload × Bool :=
  let s1 := receiveAcct s req
  if (s1.secAt req.index).root ≠ 0 then
    ({ s1 with numDup := s1.numDup + 1 }, false)
  else
    let s2 := { s1 with
      sectors := s1.sectors.set req.index ⟨root, req.hk, req.fcid⟩
      numUploaded := s1.numUploaded + 1
      used := s1.used.filter (fun h => !((odLookup s1.overdriving req.index).contains h)) }
    (s2, s2.numUploaded == s2.shards)

/-- The guard of the overdrive timer (`canOverdrive` in
`slabUpload.overdrive`): `remaining < maxOverdrive` and
`numInflight - remaining < maxOverdrive` in `uint64` arithmetic (the
`time.Since(s.lastOverdrive)` condition is timing and is modeled
nondeterministically).  `remaining` itself never underflows because
`numUploaded ≤ len(shards)` in every reachable state. -/
def canOverdrive (s : SlabUpload) : Bool :=
  if s.shards - s.numUploaded ≥ s.maxOverdrive then false
  else if (s.numInflight + U64 - (s.shards - s.numUploaded)) % U64 ≥ s.maxOverdrive then
    false
  else true

/-- The selection loop of `slabUpload.nextRequest`, over the `s.sectors`
map in iteration order `order` (Go map order is unspecified, so it is a
parameter).  Mirroring the source, `lowestNumOverdrives` is initialized to
`math.MaxInt` and — the bug — never reassigned inside the loop, so the
comparison is against `math.MaxInt` at every element. -/
def nextSectorPick (s : SlabUpload) (order : List Nat) : Option Nat :=
  order.foldl
    (fun acc i =>
      if !(s.secAt i).isUploaded ∧ (odLookup s.overdriving i).length < maxInt then
        some i
      else acc)
    none

/-- Payload of the aggregated `slabUpload.finish` failure. -/
structure SlabUploadErr where
  launched : Nat
  uploaded : Nat
  remaining : Nat
  inflight : Nat
  uploaders : Nat
  errs : List (Nat × Nat)
deriving DecidableEq, Repr

/-- Model of `slabUpload.finish`: with `numUploaded < len(s.shards)` return the
aggregated error (launched / uploaded / remaining / inflight / candidate
counters plus the host-error set); otherwise return the sector list built
by appending `s.sectors[i].uploaded` for `i = 0 .. len(s.shards)-1`. -/
def finish (s : SlabUpload) : Except SlabUploadErr (List Sector) :=
  if s.numUploaded < s.shards then
    .error ⟨s.numLaunched, s.numUploaded, s.shards - s.numUploaded, s.numInflight,
      s.candidates.length, s.errs⟩
  else
    .ok ((List.range s.shards).map (fun i => s.secAt i))

/-- The `slabUpload` built by `upload.newSlabUpload` followed by the launch
loop of `uploadShards` not having run yet: `n` zero-value sectors, every
counter 0, and the `n` initial non-overdrive requests pending in order. -/
def initSlab (n k : Nat) (cands : List Uploader) : SlabUpload :=
  { shards := n
    maxOverdrive := k
    candidates := cands
    toLaunch := List.range n
    sectors := List.replicate n Sector.zero
    inflight := []
    numInflight := 0
    numLaunched := 0
    numUploaded := 0
    numOverdriving := 0
    numFailed := 0
    numDup := 0
    overdriving := []
    used := []
    errs := []
    halted := false }

/-- The relaunch decision of the collect loop in `upload.uploadShards`
after a failed non-overdrive response:

  `if overdriving, err := slab.launch(resp.req); err != nil {
     if !overdriving { break } }`

The variable the caller names `overdriving` is `launch`'s first return
value, named `interrupt` in `launch` itself and equal (for a non-overdrive
request) to `len(s.overdriving[idx]) == 0`.  So the loop breaks — failing
the slab — exactly when `launch` errs with that flag `false`, i.e. when
the `overdriving` set recorded for the index is non-empty, and it
soft-continues when the set is empty. -/
def relaunchBreaks (s : SlabUpload) (req : Req) : Bool :=
  match launch s req with
  | (_, flag, some _) => !flag
  | (_, _, none) => false

/-- One transition of the slab-upload machinery, as driven by
`upload.uploadShards` and the goroutine of `slabUpload.overdrive`:

* `launchInit` — the launch loop of `uploadShards` launches the next
  initial request (the loop aborts the upload when `launch` errs, so only
  successful launches produce a successor state);
* `odLaunch` — the overdrive timer fires with `canOverdrive`, and
  `nextRequest` picks a not-yet-uploaded index `i` (because
  `lowestNumOverdrives` is never updated, the index picked is the last
  not-yet-uploaded sector in Go's unspecified map order — hence any
  not-yet-uploaded index), and `launch` finds a candidate (a failed
  overdrive launch leaves the state unchanged, its result is discarded);
* `recvSuccess` — a successful response for an in-flight request is
  received (host roots are Merkle roots of sector data and are never the
  zero hash, hence `root ≠ 0`);
* `recvFailOver` — a failed response for an overdrive request (the
  collect loop never relaunches overdrive requests);
* `recvFailSoft` — a failed response for a non-overdrive request whose
  relaunch finds no free candidate while the `overdriving` set recorded
  for its index is EMPTY: `launch` returns the flag
  `!req.overdrive && len(s.overdriving[idx]) == 0 = true`, the caller's
  `if !overdriving { break }` does not fire, and the loop continues;
* `recvFailBreak` — as above but with a NON-empty `overdriving` set for
  the index: the flag is `false`, the caller executes
  `break // fail the upload`, and the collect loop terminates (`halted`);
* `recvFailRelaunch` — a failed response for a non-overdrive request that
  is relaunched on the next free candidate.

All receive steps require the initial launch loop to have finished
(`toLaunch = []`): responses are delivered on an unbuffered channel that
`uploadShards` only reads after its launch loop, and the overdrive
goroutine starts after the loop as well.  No step leaves a `halted`
state. -/
inductive Step : SlabUpload → SlabUpload → Prop
  | launchInit (s s' : SlabUpload) (i : Nat) (rest : List Nat) :
      s.halted = false →
      s.toLaunch = i :: rest →
      (launch s ⟨false, i, 0, 0⟩).2.2 = none →
      s' = { (launch s ⟨false, i, 0, 0⟩).1 with toLaunch := rest } →
      Step s s'
  | odLaunch (s s' : SlabUpload) (i : Nat) :
      s.halted = false →
      s.toLaunch = [] →
      canOverdrive s = true →
      i < s.shards →
      (s.secAt i).root = 0 →
      (launch s ⟨true, i, 0, 0⟩).2.2 = none →
      s' = (launch s ⟨true, i, 0, 0⟩).1 →
      Step s s'
  | recvSuccess (s s' : SlabUpload) (req : Req) (root : Nat) :
      s.halted = false →
      s.toLaunch = [] →
      req ∈ s.inflight →
      root ≠ 0 →
      s' = (receiveSuccess s req root).1 →
      Step s s'
  | recvFailOver (s s' : SlabUpload) (req : Req) (e : Nat) :
      s.halted = false →
      s.toLaunch = [] →
      req ∈ s.inflight →
      req.overdrive = true →
      s' = receiveFail s req e →
      Step s s'
  | recvFailSoft (s s' : SlabUpload) (req : Req) (e : Nat) :
      s.halted = false →
      s.toLaunch = [] →
      req ∈ s.inflight →
      req.overdrive = false →
      pickCandidate (receiveFail s req e) = none →
      odLookup (receiveFail s req e).overdriving req.index = [] →
      s' = receiveFail s req e →
      Step s s'
  | recvFailBreak (s s' : SlabUpload) (req : Req) (e : Nat) :
      s.halted = false →
      s.toLaunch = [] →
      req ∈ s.inflight →
      req.overdrive = false →
      pickCandidate (receiveFail s req e) = none →
      odLookup (receiveFail s req e).overdriving req.index ≠ [] →
      s' = { receiveFail s req e with halted := true } →
      Step s s'
  | recvFailRelaunch (s s' : SlabUpload) (req : Req) (e : Nat) (c : Uploader) :
      s.halted = false →
      s.toLaunch = [] →
      req ∈ s.inflight →
      req.overdrive = false →
      pickCandidate (receiveFail s req e) = some c →
      s' = (launch (receiveFail s req e) req).1 →
      Step s s'

/-- Reachability under `Step`. -/
def Reachable (s t : SlabUpload) : Prop := Relation.ReflTransGen Step s t

/-- Model of `api.ContractMetadata`, restricted to the fields `refreshUploaders` and
`newUpload` read: `ID`, `HostKey`, `RenewedFrom` (0 is the zero
`FileContractID`) and `WindowEnd`. -/
structure Contract where
  id : Nat
  hostKey : Nat
  renewedFrom : Nat
  windowEnd : Nat
deriving DecidableEq, Repr

/-- The pool-identity state of a manager-owned `uploader`: host key, current
contract id, block height and window end.  The request queue, host session
and statistics are omitted — `tryRecomputeStats` only touches rate-limited
statistics and no claim reads them. -/
structure MgrUploader where
  hk : Nat
  fcid : Nat
  bh : Nat
  endHeight : Nat
deriving DecidableEq, Repr

/-- The Go map `toKeep[contract id] = contract` built by the first loop of
`refreshUploaders` (last write wins), modeled as an association list with
duplicate-free ids in insertion order. -/
def toKeepList (cs : List Contract) : List Contract :=
  cs.foldl (fun acc c => acc.filter (fun d => d.id != c.id) ++ [c]) []

/-- Lookup in the Go map `renewedTo[c.RenewedFrom] = c`, built from the
contracts with a non-zero `RenewedFrom` (last write wins). -/
def renewedToLookup (cs : List Contract) (fcid : Nat) : Option Contract :=
  cs.foldl (fun acc c => if c.renewedFrom ≠ 0 ∧ c.renewedFrom = fcid then some c else acc)
    none

/-- Model of `uploadManager.newUploader`, restricted to pool-identity fields. -/
def newMgrUploader (c : Contract) (bh : Nat) : MgrUploader :=
  ⟨c.hostKey, c.id, bh, c.windowEnd⟩

/-- Model of `uploader.renew`: swap contract id, block height and window end; the
host key (and the retained statistics) stay. -/
def renewMgrUploader (u : MgrUploader) (c : Contract) (bh : Nat) : MgrUploader :=
  { u with bh := bh, fcid := c.id, endHeight := c.windowEnd }

/-- The per-uploader loop of `refreshUploaders`: an uploader whose contract
is neither kept nor renewed is stopped and dropped; otherwise its id is
deleted from `toKeep`, and it is renewed (when `renewedTo` knows its id) or
its block height is updated.  Returns the kept uploaders in order, the
remaining `toKeep` entries, and the stopped/renewed counts. -/
def refreshLoop (cs : List Contract) (bh : Nat) :
    List MgrUploader → List Contract → List MgrUploader × List Contract × Nat × Nat
  | [], toKeep => ([], toKeep, 0, 0)
  | u :: rest, toKeep =>
      let ren := renewedToLookup cs u.fcid
      if toKeep.any (fun c => c.id == u.fcid) ∨ ren.isSome then
        let u1 := match ren with
          | some c => renewMgrUploader u c bh
          | none => { u with bh := bh }
        let r := refreshLoop cs bh rest (toKeep.filter (fun c => c.id != u.fcid))
        (u1 :: r.1, r.2.1, r.2.2.1, r.2.2.2 + (if ren.isSome then 1 else 0))
      else
        let r := refreshLoop cs bh rest toKeep
        (r.1, r.2.1, r.2.2.1 + 1, r.2.2.2)

/-- The outcome of `uploadManager.refreshUploaders`: the new pool plus ghost
instrumentation counting the uploaders stopped, renewed and spawned by the
call. -/
structure RefreshResult where
  pool : List MgrUploader
  stopped : Nat
  renewed : Nat
  spawned : Nat
deriving DecidableEq, Repr

/-- Model of `uploadManager.refreshUploaders`: run the keep/stop/renew loop over the
existing pool, then spawn one new uploader per remaining `toKeep` contract
(the Go map iteration order of that spawn loop is unspecified; the
association-list order stands in for it). -/
def refreshUploaders (pool : List MgrUploader) (cs : List Contract) (bh : Nat) :
    RefreshResult :=
  let r := refreshLoop cs bh pool (toKeepList cs)
  ⟨r.1 ++ r.2.1.map (fun c => newMgrUploader c bh), r.2.2.1, r.2.2.2, r.2.1.length⟩

/-- The error `errNotEnoughContracts`. -/
inductive MgrErr where
  | notEnoughContracts
deriving DecidableEq, Repr

/-- The `upload` value `newUpload` builds on success: the allowed host set
(a fresh upload id is minted only in this case and is not modeled). -/
structure UploadHandle where
  allowed : List Nat
deriving DecidableEq, Repr

/-- Model of `uploadManager.newUpload`: under the manager lock, first
`refreshUploaders` runs against the contract list, then the call is
rejected with `errNotEnoughContracts` when `len(contracts) < totalShards`;
otherwise the allowed host set is built.  Returns the pool after the call
together with the result. -/
def newUpload (pool : List MgrUploader) (totalShards : Nat) (cs : List Contract)
    (bh : Nat) : List MgrUploader × Except MgrErr UploadHandle :=
  let pool1 := (refreshUploaders pool cs bh).pool
  if cs.length < totalShards then
    (pool1, .error .notEnoughContracts)
  else
    (pool1, .ok ⟨cs.foldl (fun a c => insertHost c.hostKey a) []⟩)

/-- Model of `uploader.estimate` as a function of the current queue length and the
`P90()` value of the latency estimator (a `float64` produced by the
out-of-scope `stats` package, modeled as a rational): the code substitutes
1 exactly when the estimate equals 0. -/
def estimate (queueLen : Nat) (p90 : ℚ) : ℚ :=
  ((queueLen : ℚ) + 1) * (if p90 = 0 then 1 else p90)

/-- The formula the specification states for `estimate`:
`(queue_len + 1) * max(p90_latency_ms, 1)`. -/
def estimateSpec (queueLen : Nat) (p90 : ℚ) : ℚ :=
  ((queueLen : ℚ) + 1) * max p90 1

/-- Go's `time.Duration.Milliseconds()` for the nonnegative durations
measured here: nanoseconds divided by 10^6, truncated. -/
def millisecondsOf (ns : Nat) : Nat := ns / 1000000

/-- Model of `slabUpload.uploadSpeed`: `int64(numUploaded * SectorSize)` divided by
the milliseconds since the slab upload was created.  Go's integer division
panics on a zero divisor, modeled as `none`. -/
def uploadSpeedGo (numUploaded elapsedNs : Nat) : Option Nat :=
  if millisecondsOf elapsedNs = 0 then none
  else some (numUploaded * sectorSize / millisecondsOf elapsedNs)

/-- The success branch of `uploader.trackSectorUpload`: the throughput
sample `rhpv2.SectorSize / d.Milliseconds()` handed to the speed
estimator.  Go's integer division panics on a zero divisor, modeled as
`none`. -/
def trackSectorUploadSpeed (durationNs : Nat) : Option Nat :=
  if millisecondsOf durationNs = 0 then none
  else some (sectorSize / millisecondsOf durationNs)

/-- Candidate pool for the overdrive-cap counterexample trace: six hosts. -/
def c5cands : List Uploader := [⟨0, 100⟩, ⟨1, 101⟩, ⟨2, 102⟩, ⟨3, 103⟩, ⟨4, 104⟩, ⟨5, 105⟩]

/-- Overdrive-cap trace, slab of 3 shards with `maxOverdrive = 3`. -/
def c5s0 : SlabUpload := initSlab 3 3 c5cands

/-- Launch the initial request of shard 0 (host 0). -/
def c5s1 : SlabUpload := { (launch c5s0 ⟨false, 0, 0, 0⟩).1 with toLaunch := [1, 2] }

/-- Launch the initial request of shard 1 (host 1). -/
def c5s2 : SlabUpload := { (launch c5s1 ⟨false, 1, 0, 0⟩).1 with toLaunch := [2] }

/-- Launch the initial request of shard 2 (host 2). -/
def c5s3 : SlabUpload := { (launch c5s2 ⟨false, 2, 0, 0⟩).1 with toLaunch := [] }

/-- Shard 2 succeeds. -/
def c5s4 : SlabUpload := (receiveSuccess c5s3 ⟨false, 2, 2, 102⟩ 7).1

/-- The overdrive timer fires: overdrive shard 0 on host 3. -/
def c5s5 : SlabUpload := (launch c5s4 ⟨true, 0, 0, 0⟩).1

/-- The overdrive timer fires: overdrive shard 0 again on host 4. -/
def c5s6 : SlabUpload := (launch c5s5 ⟨true, 0, 0, 0⟩).1

/-- The overdrive timer fires: a third overdrive of shard 0 on host 5. -/
def c5s7 : SlabUpload := (launch c5s6 ⟨true, 0, 0, 0⟩).1

/-- The initial request of shard 1 fails; every host is used, so the
relaunch finds no candidate, and — since `overdriving[1]` is empty — the
flag `launch` returns is `true`, so `if !overdriving { break }` does not
fire and the collect loop soft-continues. -/
def c5s8 : SlabUpload := receiveFail c5s7 ⟨false, 1, 1, 101⟩ 9

/-- The initial request of shard 0 succeeds, freeing hosts 3, 4 and 5
(which were overdriving shard 0) from the used set; the three overdrives
of shard 0 stay in flight (their responses are canceled). -/
def c5s9 : SlabUpload := (receiveSuccess c5s8 ⟨false, 0, 0, 100⟩ 8).1

/-- The overdrive timer fires: a fourth overdrive (shard 1, host 3)
launches — the gate sees `num_inflight - remaining = 3 - 1 = 2 < 3`. -/
def c5s10 : SlabUpload := (launch c5s9 ⟨true, 1, 0, 0⟩).1

/-- Candidate pool for the accounting-identity counterexample: three hosts. -/
def c8cands : List Uploader := [⟨0, 100⟩, ⟨1, 101⟩, ⟨2, 102⟩]

/-- Accounting trace, slab of 2 shards with `maxOverdrive = 3`. -/
def c8s0 : SlabUpload := initSlab 2 3 c8cands

/-- Launch the initial request of shard 0 (host 0). -/
def c8s1 : SlabUpload := { (launch c8s0 ⟨false, 0, 0, 0⟩).1 with toLaunch := [1] }

/-- Launch the initial request of shard 1 (host 1). -/
def c8s2 : SlabUpload := { (launch c8s1 ⟨false, 1, 0, 0⟩).1 with toLaunch := [] }

/-- The overdrive timer fires: overdrive shard 0 on host 2. -/
def c8s3 : SlabUpload := (launch c8s2 ⟨true, 0, 0, 0⟩).1

/-- The initial request of shard 0 succeeds. -/
def c8s4 : SlabUpload := (receiveSuccess c8s3 ⟨false, 0, 0, 100⟩ 5).1

/-- The overdrive of shard 0 also succeeds — a duplicate: `receive`
decrements `numInflight` but bumps neither `numUploaded` nor the error
set. -/
def c8s5 : SlabUpload := (receiveSuccess c8s4 ⟨true, 0, 2, 102⟩ 5).1

/-- Candidate pool for the interrupt-semantics traces: two hosts. -/
def c6cands : List Uploader := [⟨0, 100⟩, ⟨1, 101⟩]

/-- Interrupt trace, slab of 1 shard with `maxOverdrive = 2`. -/
def c6s0 : SlabUpload := initSlab 1 2 c6cands

/-- Launch the initial request of shard 0 (host 0). -/
def c6s1 : SlabUpload := { (launch c6s0 ⟨false, 0, 0, 0⟩).1 with toLaunch := [] }

/-- The overdrive timer fires: overdrive shard 0 on host 1 (in flight). -/
def c6s2 : SlabUpload := (launch c6s1 ⟨true, 0, 0, 0⟩).1

/-- The initial request of shard 0 fails while its overdrive is still in
flight; at this state the collect loop calls `launch` to relaunch it and
finds no candidate (both hosts used). -/
def c6s3 : SlabUpload := receiveFail c6s2 ⟨false, 0, 0, 100⟩ 6

/-- The state after the collect loop executes `break // fail the upload`:
`overdriving[0] = {host 1}` is non-empty, so the flag is `false` and the
loop terminates although the overdrive is still in flight. -/
def c6sB : SlabUpload := { c6s3 with halted := true }

/-- The non-overdrive request being relaunched at `c6s3`. -/
def c6req : Req := ⟨false, 0, 0, 100⟩

/-- Soft-side trace: slab of 1 shard with a single candidate host. -/
def c6t0 : SlabUpload := initSlab 1 1 [⟨0, 100⟩]

/-- Launch the initial request of shard 0 (host 0, the only host). -/
def c6t1 : SlabUpload := { (launch c6t0 ⟨false, 0, 0, 0⟩).1 with toLaunch := [] }

/-- The initial request of shard 0 fails with no overdrive ever launched;
the relaunch finds no candidate, `overdriving[0]` is empty, the flag is
`true`, and the collect loop soft-continues (no break) even though no
overdrive covers the index. -/
def c6t2 : SlabUpload := receiveFail c6t1 ⟨false, 0, 0, 100⟩ 7

/-- Completion trace for the finish witness: slab of 1 shard, one host. -/
def c2s0 : SlabUpload := initSlab 1 1 [⟨0, 100⟩]

/-- Launch the initial request of shard 0 (host 0). -/
def c2s1 : SlabUpload := { (launch c2s0 ⟨false, 0, 0, 0⟩).1 with toLaunch := [] }

/-- Shard 0 succeeds: the slab is complete. -/
def c2s2 : SlabUpload := (receiveSuccess c2s1 ⟨false, 0, 0, 100⟩ 5).1

/-- A slab-upload state for the `nextRequest` bug: neither shard uploaded,
shard 0 with no overdrives, shard 1 with one overdrive (host 7). -/
def c4state : SlabUpload := { initSlab 2 2 [] with overdriving := [(1, [7])] }

/-- Contracts for the refresh-idempotence counterexample: `c9d` and its
renewal `c9c` both appear in the contract list. -/
def c9d : Contract := ⟨1, 10, 0, 100⟩

/-- The renewal of `c9d` (its `RenewedFrom` is `c9d`'s id). -/
def c9c : Contract := ⟨2, 11, 1, 200⟩

/-- Contract for the not-enough-contracts counterexample. -/
def c3c : Contract := ⟨1, 5, 0, 10⟩

/-- Removing one occurrence of a member splits a filtered length. -/
theorem length_filter_erase {α} [DecidableEq α] (l : List α) (a : α) (p : α → Bool)
    (ha : a ∈ l) :
    (l.filter p).length = ((l.erase a).filter p).length + (if p a then 1 else 0) := by
  have hperm := (List.perm_cons_erase ha).filter p
  rw [hperm.length_eq, List.filter_cons]
  by_cases h : p a <;> simp [h]

/-- Setting a zero-root slot to a non-zero-root record bumps the count of
uploaded sectors by one. -/
theorem filterUploaded_set (l : List Sector) (i : Nat) (sec : Sector)
    (hi : i < l.length) (hold : (l.getD i Sector.zero).root = 0) (hnew : sec.root ≠ 0) :
    ((l.set i sec).filter (fun t => t.root != 0)).length
      = (l.filter (fun t => t.root != 0)).length + 1 := by
  induction l generalizing i with
  | nil => simp at hi
  | cons a l ih =>
    cases i with
    | zero =>
      simp only [List.getD_cons_zero] at hold
      simp [List.filter_cons, hold, hnew]
    | succ i =>
      simp only [List.getD_cons_succ] at hold
      have hrec := ih i (by simpa using hi) hold
      by_cases ha : a.root = 0 <;>
        simp [List.filter_cons, ha, hrec]

/-- Rebuilding a list by reading positions `0 .. length-1` returns it. -/
theorem range_map_getD {α} (l : List α) (d : α) :
    (List.range l.length).map (fun i => l.getD i d) = l := by
  apply List.ext_getElem <;> simp [List.getD_eq_getElem?_getD]
  intro i h1
  simp [List.getElem?_eq_getElem h1]

/-- The inductive invariant of the slab-upload state machine: the length of
the sector table, the correspondence of the `uint64` counters with the
ghost in-flight list and ghost response counters, the counter identity of
`numLaunched`, the in-flight bound, and index validity. -/
structure SlabInv (s : SlabUpload) : Prop where
  secLen : s.sectors.length = s.shards
  inflEq : s.numInflight = s.inflight.length
  odEq : s.numOverdriving = (s.inflight.filter (fun r => r.overdrive)).length
  upEq : s.numUploaded = (s.sectors.filter (fun t => t.root != 0)).length
  launchedEq : s.numLaunched = s.numUploaded + s.numInflight + s.numFailed + s.numDup
  bound : s.numInflight + s.toLaunch.length ≤ s.maxOverdrive + (s.shards - s.numUploaded)
  inflIdx : ∀ r ∈ s.inflight, r.index < s.shards
  toLaunchIdx : ∀ i ∈ s.toLaunch, i < s.shards

/-- The number of uploaded sectors never exceeds the number of shards. -/
theorem SlabInv.uploaded_le {s : SlabUpload} (h : SlabInv s) :
    s.numUploaded ≤ s.shards := by
  rw [h.upEq, ← h.secLen]
  exact List.length_filter_le _ _

/-- Unfolding of `canOverdrive` into its two counter guards. -/
theorem canOverdrive_iff (s : SlabUpload) :
    canOverdrive s = true ↔
      (s.shards - s.numUploaded < s.maxOverdrive ∧
        (s.numInflight + U64 - (s.shards - s.numUploaded)) % U64 < s.maxOverdrive) := by
  unfold canOverdrive
  split
  · simp; omega
  · split
    · simp; omega
    · simp; omega

/-- Behavior of `launch` when no candidate host is free. -/
theorem launch_none (s : SlabUpload) (req : Req) (h : pickCandidate s = none) :
    launch s req =
      (s, !req.overdrive && ((odLookup s.overdriving req.index).length == 0),
        some .noCandidateUploader) := by
  unfold launch; rw [h]

/-- Behavior of `launch` when the first free candidate is `c`. -/
theorem launch_some (s : SlabUpload) (req : Req) (c : Uploader)
    (h : pickCandidate s = some c) :
    launch s req =
      ({ s with
          numInflight := s.numInflight + 1
          numLaunched := s.numLaunched + 1
          used := insertHost c.hk s.used
          inflight := { req with hk := c.hk, fcid := c.fcid } :: s.inflight
          numOverdriving := if req.overdrive then s.numOverdriving + 1 else s.numOverdriving
          overdriving :=
            if req.overdrive then odInsert s.overdriving req.index c.hk else s.overdriving },
        false, none) := by
  unfold launch; rw [h]

/-- Behavior of `receiveSuccess` on a redundant success. -/
theorem receiveSuccess_dup (s : SlabUpload) (req : Req) (root : Nat)
    (h : ((receiveAcct s req).secAt req.index).root ≠ 0) :
    receiveSuccess s req root =
      ({ receiveAcct s req with numDup := (receiveAcct s req).numDup + 1 }, false) := by
  unfold receiveSuccess
  rw [if_pos h]

/-- Behavior of `receiveSuccess` on the first success for an index. -/
theorem receiveSuccess_first (s : SlabUpload) (req : Req) (root : Nat)
    (h : ((receiveAcct s req).secAt req.index).root = 0) :
    receiveSuccess s req root =
      (let s1 := receiveAcct s req
       let s2 : SlabUpload := { s1 with
         sectors := s1.sectors.set req.index ⟨root, req.hk, req.fcid⟩
         numUploaded := s1.numUploaded + 1
         used := s1.used.filter
           (fun hh => !((odLookup s1.overdriving req.index).contains hh)) }
       (s2, s2.numUploaded == s2.shards)) := by
  unfold receiveSuccess
  rw [if_neg (by simpa using h)]

/-- Steps do not change the static fields of the slab upload. -/
theorem Step.static {s t : SlabUpload} (h : Step s t) :
    t.shards = s.shards ∧ t.maxOverdrive = s.maxOverdrive ∧
      t.candidates = s.candidates := by
  cases h with
  | launchInit i rest h0 h1 h2 h3 =>
    cases hpc : pickCandidate s with
    | none => rw [launch_none s _ hpc] at h2; cases h2
    | some c => rw [launch_some s _ c hpc] at h3; subst h3; exact ⟨rfl, rfl, rfl⟩
  | odLaunch i h0 h1 h2 h3 h4 h5 h6 =>
    cases hpc : pickCandidate s with
    | none => rw [launch_none s _ hpc] at h5; cases h5
    | some c => rw [launch_some s _ c hpc] at h6; subst h6; exact ⟨rfl, rfl, rfl⟩
  | recvSuccess req root h0 h1 h2 h3 h4 =>
    by_cases hdup : ((receiveAcct s req).secAt req.index).root = 0
    · rw [receiveSuccess_first s req root hdup] at h4
      subst h4; exact ⟨rfl, rfl, rfl⟩
    · rw [receiveSuccess_dup s req root hdup] at h4
      subst h4; exact ⟨rfl, rfl, rfl⟩
  | recvFailOver req e h0 h1 h2 h3 h4 =>
    subst h4; exact ⟨rfl, rfl, rfl⟩
  | recvFailSoft req e h0 h1 h2 h3 h4 h5 h6 =>
    subst h6; exact ⟨rfl, rfl, rfl⟩
  | recvFailBreak req e h0 h1 h2 h3 h4 h5 h6 =>
    subst h6; exact ⟨rfl, rfl, rfl⟩
  | recvFailRelaunch req e c h0 h1 h2 h3 h4 h5 =>
    rw [launch_some _ req c h4] at h5
    subst h5; exact ⟨rfl, rfl, rfl⟩

/-- Counter bookkeeping of the common receive prefix: retiring an in-flight
request relates the `uint64` counters to the ghost list with one request
erased. -/
theorem receiveAcct_facts {s : SlabUpload} {req : Req} (hI : SlabInv s)
    (hm : req ∈ s.inflight) :
    s.numInflight = (s.inflight.erase req).length + 1 ∧
      (req.overdrive = true →
        s.numOverdriving
          = ((s.inflight.erase req).filter (fun r => r.overdrive)).length + 1) ∧
      (req.overdrive = false →
        s.numOverdriving
          = ((s.inflight.erase req).filter (fun r => r.overdrive)).length) := by
  have hpos : 0 < s.inflight.length := List.length_pos_of_mem hm
  have hfe := length_filter_erase s.inflight req (fun r => r.overdrive) hm
  refine ⟨?_, ?_, ?_⟩
  · rw [hI.inflEq, List.length_erase_of_mem hm]; omega
  · intro ho
    simp only [ho, if_true] at hfe
    rw [hI.odEq]; omega
  · intro ho
    simp only [ho] at hfe; simp at hfe
    rw [hI.odEq]; omega

/-- Steps preserve the inductive invariant (the `2^64` side condition on
the static counters rules out `uint64` wrap-around in `canOverdrive`). -/
theorem Step.inv {s t : SlabUpload} (h : Step s t)
    (hU : s.maxOverdrive + s.shards < U64) (hI : SlabInv s) : SlabInv t := by
  cases h with
  | launchInit i rest h0 h1 h2 h3 =>
    cases hpc : pickCandidate s with
    | none => rw [launch_none s _ hpc] at h2; cases h2
    | some c =>
      rw [launch_some s _ c hpc] at h3
      subst h3
      have hi : i < s.shards := hI.toLaunchIdx i (by rw [h1]; exact List.mem_cons_self i rest)
      have hlt : s.toLaunch.length = rest.length + 1 := by rw [h1]; rfl
      refine ⟨hI.secLen, ?_, ?_, hI.upEq, ?_, ?_, ?_, ?_⟩
      · simp [hI.inflEq]
      · simpa [List.filter_cons] using hI.odEq
      · have := hI.launchedEq; simp; omega
      · have := hI.bound; simp; omega
      · intro r hr
        rcases List.mem_cons.1 hr with hr | hr
        · subst hr; exact hi
        · exact hI.inflIdx r hr
      · intro j hj
        exact hI.toLaunchIdx j (by rw [h1]; exact List.mem_cons_of_mem i hj)
  | odLaunch i h0 h1 h2 h3 h4 h5 h6 =>
    cases hpc : pickCandidate s with
    | none => rw [launch_none s _ hpc] at h5; cases h5
    | some c =>
      rw [launch_some s _ c hpc] at h6
      subst h6
      obtain ⟨hrem, hmod⟩ := (canOverdrive_iff s).1 h2
      have hb := hI.bound
      rw [h1] at hb
      simp at hb
      have hup := hI.uploaded_le
      have hcap : s.numInflight + 1 ≤ s.maxOverdrive + (s.shards - s.numUploaded) := by
        by_cases hge : s.shards - s.numUploaded ≤ s.numInflight
        · have he : s.numInflight + U64 - (s.shards - s.numUploaded)
              = (s.numInflight - (s.shards - s.numUploaded)) + U64 := by omega
          rw [he, Nat.add_mod_right] at hmod
          have hlt : s.numInflight - (s.shards - s.numUploaded) < U64 := by omega
          rw [Nat.mod_eq_of_lt hlt] at hmod
          omega
        · omega
      refine ⟨hI.secLen, ?_, ?_, hI.upEq, ?_, ?_, ?_, ?_⟩
      · simp [hI.inflEq]
      · simpa [List.filter_cons] using hI.odEq
      · have := hI.launchedEq; simp; omega
      · rw [h1]; simpa using hcap
      · intro r hr
        rcases List.mem_cons.1 hr with hr | hr
        · subst hr; exact h3
        · exact hI.inflIdx r hr
      · rw [h1]; intro j hj; cases hj
  | recvSuccess req root h0 h1 h2 h3 h4 =>
    obtain ⟨hf1, hf2, hf3⟩ := receiveAcct_facts hI h2
    have hidx : req.index < s.sectors.length := by
      rw [hI.secLen]; exact hI.inflIdx req h2
    by_cases hdup : ((receiveAcct s req).secAt req.index).root = 0
    · rw [receiveSuccess_first s req root hdup] at h4
      subst h4
      have hset := filterUploaded_set s.sectors req.index ⟨root, req.hk, req.fcid⟩
        hidx (by simpa [receiveAcct, SlabUpload.secAt] using hdup) (by simpa using h3)
      have hle := List.length_filter_le (fun u => u.root != 0)
        (s.sectors.set req.index (⟨root, req.hk, req.fcid⟩ : Sector))
      rw [List.length_set] at hle
      refine ⟨?_, ?_, ?_, ?_, ?_, ?_, ?_, ?_⟩
      · simpa [receiveAcct] using hI.secLen
      · simp [receiveAcct, hI.inflEq, List.length_erase_of_mem h2]
      · cases ho : req.overdrive
        · simpa [receiveAcct, ho] using hf3 ho
        · have := hf2 ho; simp [receiveAcct, ho]; omega
      · simp [receiveAcct]
        rw [hset, ← hI.upEq]
      · have := hI.launchedEq; simp [receiveAcct]; omega
      · have := hI.bound
        have hu : s.numUploaded + 1 ≤ s.shards := by
          rw [hI.upEq, ← hI.secLen]; omega
        simp [receiveAcct]; omega
      · intro r hr
        simp only [receiveAcct] at hr
        exact hI.inflIdx r (List.mem_of_mem_erase hr)
      · simpa [receiveAcct] using hI.toLaunchIdx
    · rw [receiveSuccess_dup s req root hdup] at h4
      subst h4
      refine ⟨?_, ?_, ?_, ?_, ?_, ?_, ?_, ?_⟩
      · simpa [receiveAcct] using hI.secLen
      · simp [receiveAcct, hI.inflEq, List.length_erase_of_mem h2]
      · cases ho : req.overdrive
        · simpa [receiveAcct, ho] using hf3 ho
        · have := hf2 ho; simp [receiveAcct, ho]; omega
      · simpa [receiveAcct] using hI.upEq
      · have := hI.launchedEq; simp [receiveAcct]; omega
      · have := hI.bound; simp [receiveAcct]; omega
      · intro r hr
        simp only [receiveAcct] at hr
        exact hI.inflIdx r (List.mem_of_mem_erase hr)
      · simpa [receiveAcct] using hI.toLaunchIdx
  | recvFailOver req e h0 h1 h2 h3 h4 =>
    obtain ⟨hf1, hf2, hf3⟩ := receiveAcct_facts hI h2
    subst h4
    refine ⟨?_, ?_, ?_, ?_, ?_, ?_, ?_, ?_⟩
    · simpa [receiveFail, receiveAcct] using hI.secLen
    · simp [receiveFail, receiveAcct, hI.inflEq, List.length_erase_of_mem h2]
    · have := hf2 h3; simp [receiveFail, receiveAcct, h3]; omega
    · simpa [receiveFail, receiveAcct] using hI.upEq
    · have := hI.launchedEq; simp [receiveFail, receiveAcct]; omega
    · have := hI.bound; simp [receiveFail, receiveAcct]; omega
    · intro r hr
      simp only [receiveFail, receiveAcct] at hr
      exact hI.inflIdx r (List.mem_of_mem_erase hr)
    · simpa [receiveFail, receiveAcct] using hI.toLaunchIdx
  | recvFailSoft req e h0 h1 h2 h3 h4 h5 h6 =>
    obtain ⟨hf1, hf2, hf3⟩ := receiveAcct_facts hI h2
    subst h6
    refine ⟨?_, ?_, ?_, ?_, ?_, ?_, ?_, ?_⟩
    · simpa [receiveFail, receiveAcct] using hI.secLen
    · simp [receiveFail, receiveAcct, hI.inflEq, List.length_erase_of_mem h2]
    · have := hf3 h3; simp [receiveFail, receiveAcct, h3]; omega
    · simpa [receiveFail, receiveAcct] using hI.upEq
    · have := hI.launchedEq; simp [receiveFail, receiveAcct]; omega
    · have := hI.bound; simp [receiveFail, receiveAcct]; omega
    · intro r hr
      simp only [receiveFail, receiveAcct] at hr
      exact hI.inflIdx r (List.mem_of_mem_erase hr)
    · simpa [receiveFail, receiveAcct] using hI.toLaunchIdx
  | recvFailBreak req e h0 h1 h2 h3 h4 h5 h6 =>
    obtain ⟨hf1, hf2, hf3⟩ := receiveAcct_facts hI h2
    subst h6
    refine ⟨?_, ?_, ?_, ?_, ?_, ?_, ?_, ?_⟩
    · simpa [receiveFail, receiveAcct] using hI.secLen
    · simp [receiveFail, receiveAcct, hI.inflEq, List.length_erase_of_mem h2]
    · have := hf3 h3; simp [receiveFail, receiveAcct, h3]; omega
    · simpa [receiveFail, receiveAcct] using hI.upEq
    · have := hI.launchedEq; simp [receiveFail, receiveAcct]; omega
    · have := hI.bound; simp [receiveFail, receiveAcct]; omega
    · intro r hr
      simp only [receiveFail, receiveAcct] at hr
      exact hI.inflIdx r (List.mem_of_mem_erase hr)
    · simpa [receiveFail, receiveAcct] using hI.toLaunchIdx
  | recvFailRelaunch req e c h0 h1 h2 h3 h4 h5 =>
    obtain ⟨hf1, hf2, hf3⟩ := receiveAcct_facts hI h2
    rw [launch_some _ req c h4] at h5
    subst h5
    refine ⟨?_, ?_, ?_, ?_, ?_, ?_, ?_, ?_⟩
    · simpa [receiveFail, receiveAcct] using hI.secLen
    · simp [receiveFail, receiveAcct, hI.inflEq, List.length_erase_of_mem h2]
    · have := hf3 h3
      simp [receiveFail, receiveAcct, h3, List.filter_cons]
      omega
    · simpa [receiveFail, receiveAcct] using hI.upEq
    · have := hI.launchedEq; simp [receiveFail, receiveAcct]; omega
    · have := hI.bound; simp [receiveFail, receiveAcct]; omega
    · intro r hr
      simp only [receiveFail, receiveAcct] at hr
      rcases List.mem_cons.1 hr with hr | hr
      · subst hr; exact hI.inflIdx req h2
      · exact hI.inflIdx r (List.mem_of_mem_erase hr)
    · simpa [receiveFail, receiveAcct] using hI.toLaunchIdx

/-- The initial slab-upload state satisfies the invariant. -/
theorem initSlab_inv (n k : Nat) (cands : List Uploader) : SlabInv (initSlab n k cands) := by
  refine ⟨?_, rfl, rfl, ?_, rfl, ?_, ?_, ?_⟩
  · simp [initSlab]
  · simp [initSlab, Sector.zero]
  · simp [initSlab]
  · intro r hr; simp [initSlab] at hr
  · intro i hi; simpa [initSlab] using hi

/-- Every state reachable from a fresh slab upload satisfies the invariant,
and the static fields persist. -/
theorem reachable_facts {n k : Nat} {cands : List Uploader} {s : SlabUpload}
    (hU : k + n < U64) (h : Reachable (initSlab n k cands) s) :
    SlabInv s ∧ s.shards = n ∧ s.maxOverdrive = k ∧ s.candidates = cands := by
  induction h with
  | refl => exact ⟨initSlab_inv n k cands, rfl, rfl, rfl⟩
  | tail hab hbc ih =>
      obtain ⟨hIb, hn, hk, hc⟩ := ih
      obtain ⟨h1, h2, h3⟩ := hbc.static
      refine ⟨hbc.inv (by rw [hk, hn]; omega) hIb, ?_, ?_, ?_⟩
      · rw [h1, hn]
      · rw [h2, hk]
      · rw [h3, hc]

/-- The overdrive-cap trace is a run of the slab-upload machinery. -/
theorem c5_reach : Reachable (initSlab 3 3 c5cands) c5s10 := by
  have h1 : Step c5s0 c5s1 :=
    .launchInit c5s0 c5s1 0 [1, 2] (by decide) (by decide) (by decide) (by decide)
  have h2 : Step c5s1 c5s2 :=
    .launchInit c5s1 c5s2 1 [2] (by decide) (by decide) (by decide) (by decide)
  have h3 : Step c5s2 c5s3 :=
    .launchInit c5s2 c5s3 2 [] (by decide) (by decide) (by decide) (by decide)
  have h4 : Step c5s3 c5s4 :=
    .recvSuccess c5s3 c5s4 ⟨false, 2, 2, 102⟩ 7 (by decide) (by decide) (by decide)
      (by decide) (by decide)
  have h5 : Step c5s4 c5s5 :=
    .odLaunch c5s4 c5s5 0 (by decide) (by decide) (by decide) (by decide) (by decide)
      (by decide) (by decide)
  have h6 : Step c5s5 c5s6 :=
    .odLaunch c5s5 c5s6 0 (by decide) (by decide) (by decide) (by decide) (by decide)
      (by decide) (by decide)
  have h7 : Step c5s6 c5s7 :=
    .odLaunch c5s6 c5s7 0 (by decide) (by decide) (by decide) (by decide) (by decide)
      (by decide) (by decide)
  have h8 : Step c5s7 c5s8 :=
    .recvFailSoft c5s7 c5s8 ⟨false, 1, 1, 101⟩ 9 (by decide) (by decide) (by decide)
      (by decide) (by decide) (by decide) (by decide)
  have h9 : Step c5s8 c5s9 :=
    .recvSuccess c5s8 c5s9 ⟨false, 0, 0, 100⟩ 8 (by decide) (by decide) (by decide)
      (by decide) (by decide)
  have h10 : Step c5s9 c5s10 :=
    .odLaunch c5s9 c5s10 1 (by decide) (by decide) (by decide) (by decide) (by decide)
      (by decide) (by decide)
  exact .tail (.tail (.tail (.tail (.tail (.tail (.tail (.tail (.tail
    (Relation.ReflTransGen.single h1) h2) h3) h4) h5) h6) h7) h8) h9) h10

/-- The duplicate-success trace is a run of the slab-upload machinery. -/
theorem c8_reach : Reachable (initSlab 2 3 c8cands) c8s5 := by
  have h1 : Step c8s0 c8s1 :=
    .launchInit c8s0 c8s1 0 [1] (by decide) (by decide) (by decide) (by decide)
  have h2 : Step c8s1 c8s2 :=
    .launchInit c8s1 c8s2 1 [] (by decide) (by decide) (by decide) (by decide)
  have h3 : Step c8s2 c8s3 :=
    .odLaunch c8s2 c8s3 0 (by decide) (by decide) (by decide) (by decide) (by decide)
      (by decide) (by decide)
  have h4 : Step c8s3 c8s4 :=
    .recvSuccess c8s3 c8s4 ⟨false, 0, 0, 100⟩ 5 (by decide) (by decide) (by decide)
      (by decide) (by decide)
  have h5 : Step c8s4 c8s5 :=
    .recvSuccess c8s4 c8s5 ⟨true, 0, 2, 102⟩ 5 (by decide) (by decide) (by decide)
      (by decide) (by decide)
  exact .tail (.tail (.tail (.tail (Relation.ReflTransGen.single h1) h2) h3) h4) h5

/-- The overdrive-in-flight break trace is a run of the slab-upload
machinery: the initial request of the only shard fails while its overdrive
is in flight, the relaunch finds no candidate, `overdriving[0]` is
non-empty, and the collect loop breaks. -/
theorem c6_reach : Reachable (initSlab 1 2 c6cands) c6sB := by
  have h1 : Step c6s0 c6s1 :=
    .launchInit c6s0 c6s1 0 [] (by decide) (by decide) (by decide) (by decide)
  have h2 : Step c6s1 c6s2 :=
    .odLaunch c6s1 c6s2 0 (by decide) (by decide) (by decide) (by decide) (by decide)
      (by decide) (by decide)
  have h3 : Step c6s2 c6sB :=
    .recvFailBreak c6s2 c6sB ⟨false, 0, 0, 100⟩ 6 (by decide) (by decide) (by decide)
      (by decide) (by decide) (by decide) (by decide)
  exact .tail (.tail (Relation.ReflTransGen.single h1) h2) h3

/-- The no-overdrive soft-continue trace is a run of the slab-upload
machinery: with a single candidate host, the initial request of the only
shard fails, the relaunch finds no candidate, `overdriving[0]` is empty,
and the collect loop continues without breaking. -/
theorem c6_soft_reach : Reachable (initSlab 1 1 [⟨0, 100⟩]) c6t2 := by
  have h1 : Step c6t0 c6t1 :=
    .launchInit c6t0 c6t1 0 [] (by decide) (by decide) (by decide) (by decide)
  have h2 : Step c6t1 c6t2 :=
    .recvFailSoft c6t1 c6t2 ⟨false, 0, 0, 100⟩ 7 (by decide) (by decide) (by decide)
      (by decide) (by decide) (by decide) (by decide)
  exact .tail (Relation.ReflTransGen.single h1) h2

/-- The completed one-shard trace is a run of the slab-upload machinery. -/
theorem c2_reach : Reachable (initSlab 1 1 [⟨0, 100⟩]) c2s2 := by
  have h1 : Step c2s0 c2s1 :=
    .launchInit c2s0 c2s1 0 [] (by decide) (by decide) (by decide) (by decide)
  have h2 : Step c2s1 c2s2 :=
    .recvSuccess c2s1 c2s2 ⟨false, 0, 0, 100⟩ 5 (by decide) (by decide) (by decide)
      (by decide) (by decide)
  exact .tail (Relation.ReflTransGen.single h1) h2

/-- C1: for every slab upload and shard index, the uploaded record is
installed at most once, by the first successful response received for that
index.  `receive` on a success for a not-yet-uploaded index installs
`{root, host, {contract}}` from that response and increments
`num_uploaded`; once the index has a (necessarily non-zero) uploaded root,
every later successful response leaves the whole sector table unchanged
and does not increment `num_uploaded`. -/
theorem receive_first_success_authoritative (s : SlabUpload) (req : Req) (root : Nat)
    (hroot : root ≠ 0) (hidx : req.index < s.sectors.length) :
    ((s.secAt req.index).root = 0 →
        (receiveSuccess s req root).1.secAt req.index = ⟨root, req.hk, req.fcid⟩ ∧
          ((receiveSuccess s req root).1.secAt req.index).root ≠ 0 ∧
          (receiveSuccess s req root).1.numUploaded = s.numUploaded + 1) ∧
      ((s.secAt req.index).root ≠ 0 →
        (receiveSuccess s req root).1.sectors = s.sectors ∧
          (receiveSuccess s req root).1.numUploaded = s.numUploaded) := by
  constructor
  · intro h0
    rw [receiveSuccess_first s req root h0]
    have hinst : (s.sectors.set req.index
          (⟨root, req.hk, req.fcid⟩ : Sector)).getD req.index Sector.zero
        = ⟨root, req.hk, req.fcid⟩ := by
      rw [List.getD_eq_getElem?_getD, List.getElem?_set_self (by simpa using hidx)]
      rfl
    refine ⟨?_, ?_, rfl⟩
    · simpa only [SlabUpload.secAt, receiveAcct] using hinst
    · simp only [SlabUpload.secAt, receiveAcct]
      rw [hinst]
      exact hroot
  · intro hne
    rw [receiveSuccess_dup s req root hne]
    exact ⟨rfl, rfl⟩

/-- Witness for C1: on a fresh one-shard slab the first success for index 0
installs `{5, host 3, contract 103}` and bumps `num_uploaded`. -/
theorem receive_first_success_authoritative_witness :
    (receiveSuccess (initSlab 1 1 [⟨0, 100⟩]) ⟨false, 0, 3, 103⟩ 5).1.secAt 0
        = ⟨5, 3, 103⟩ ∧
      ((receiveSuccess (initSlab 1 1 [⟨0, 100⟩]) ⟨false, 0, 3, 103⟩ 5).1.secAt 0).root ≠ 0 ∧
      (receiveSuccess (initSlab 1 1 [⟨0, 100⟩]) ⟨false, 0, 3, 103⟩ 5).1.numUploaded
        = (initSlab 1 1 [⟨0, 100⟩]).numUploaded + 1 :=
  (receive_first_success_authoritative (initSlab 1 1 [⟨0, 100⟩]) ⟨false, 0, 3, 103⟩ 5
    (by decide) (by decide)).1 (by decide)

/-- C2: in every reachable slab-upload state, `finish` returns the sector
list exactly when `num_uploaded` equals the number of shards; the list is
the sector table itself — length `total_shards`, position `i` holding the
uploaded record of shard index `i` (hence distinct indices) with a
non-zero root; otherwise `finish` returns the aggregated error carrying
the launched/uploaded/remaining/inflight/candidate counters and the
per-host error set, and no sector list. -/
theorem finish_returns_sectors_iff_complete (n k : Nat) (cands : List Uploader)
    (s : SlabUpload) (hU : k + n < U64) (hreach : Reachable (initSlab n k cands) s) :
    (s.numUploaded = n →
        finish s = Except.ok s.sectors ∧ s.sectors.length = n ∧
          ∀ sec ∈ s.sectors, sec.root ≠ 0) ∧
      (s.numUploaded ≠ n →
        finish s = Except.error ⟨s.numLaunched, s.numUploaded, n - s.numUploaded,
          s.numInflight, cands.length, s.errs⟩) := by
  obtain ⟨hI, hn, hk, hc⟩ := reachable_facts hU hreach
  constructor
  · intro hcomp
    have hnotlt : ¬ s.numUploaded < s.shards := by rw [hn]; omega
    have hmap : (List.range s.shards).map (fun i => s.secAt i) = s.sectors := by
      rw [← hI.secLen]
      simpa only [SlabUpload.secAt] using range_map_getD s.sectors Sector.zero
    refine ⟨?_, by rw [hI.secLen, hn], ?_⟩
    · unfold finish
      rw [if_neg hnotlt, hmap]
    · have hflen : (s.sectors.filter (fun t => t.root != 0)).length = s.sectors.length := by
        rw [← hI.upEq, hI.secLen, hn, hcomp]
      have heq : s.sectors.filter (fun t => t.root != 0) = s.sectors :=
        (List.filter_sublist s.sectors).eq_of_length hflen
      intro sec hsec
      have hmem : sec ∈ s.sectors.filter (fun t => t.root != 0) := by
        rw [heq]; exact hsec
      simpa using (List.mem_filter.mp hmem).2
  · intro hne
    have hlt : s.numUploaded < s.shards := by
      have := hI.uploaded_le
      rw [hn] at this ⊢
      omega
    unfold finish
    rw [if_pos hlt, hn, hc]

/-- Witness for C2: the completed one-shard trace, where `finish` returns
the single uploaded sector with its non-zero root. -/
theorem finish_returns_sectors_iff_complete_witness :
    finish c2s2 = Except.ok c2s2.sectors ∧ c2s2.sectors.length = 1 ∧
      ∀ sec ∈ c2s2.sectors, sec.root ≠ 0 :=
  (finish_returns_sectors_iff_complete 1 1 [⟨0, 100⟩] c2s2 (by decide) c2_reach).1
    (by decide)

/-- C5 counterexample: a reachable run (3 shards, `max_overdrive = 3`, six
hosts, overdrive enabled) in which four overdrive requests are in flight
at once — `num_overdriving = 4 > 3 = max_overdrive`.  Three overdrives
pile onto shard 0; the initial request of shard 1 fails and its relaunch
finds no candidate, which is a SOFT failure in the code because
`overdriving[1]` is empty (`launch` returns flag `true`, so
`if !overdriving { break }` does not fire) — this lowers `num_inflight`
without lowering `remaining`; then shard 0 completes, its three overdrives
stay in flight as canceled zombies, and the gate
`num_inflight - remaining = 3 - 1 = 2 < 3` admits a fourth overdrive on a
host shard 0's completion freed. -/
theorem overdrive_limit_cex :
    Reachable (initSlab 3 3 c5cands) c5s10 ∧
      (initSlab 3 3 c5cands).maxOverdrive = 3 ∧
      c5s10.numOverdriving = 4 ∧
      c5s10.numOverdriving = (c5s10.inflight.filter (fun r => r.overdrive)).length :=
  ⟨c5_reach, by decide, by decide, by decide⟩

/-- C5 amended: in every reachable slab-upload state,
`num_inflight ≤ max_overdrive + (total_shards - num_uploaded)` (the side
condition keeps the `uint64` arithmetic of the overdrive gate exact). -/
theorem inflight_le_overdrive_budget (n k : Nat) (cands : List Uploader)
    (s : SlabUpload) (hU : k + n < U64)
    (hreach : Reachable (initSlab n k cands) s) :
    s.numInflight ≤ k + (n - s.numUploaded) := by
  obtain ⟨hI, hn, hk, _⟩ := reachable_facts hU hreach
  have hb := hI.bound
  rw [hn, hk] at hb
  omega

/-- Witness for C5: the bound holds with equality at the end of the
counterexample trace (4 in-flight, budget 3 + 1). -/
theorem inflight_le_overdrive_budget_witness :
    c5s10.numInflight ≤ 3 + (3 - c5s10.numUploaded) :=
  inflight_le_overdrive_budget 3 3 c5cands c5s10 (by decide) c5_reach

/-- C8 counterexample: a reachable run in which a duplicate success was
received (shard 0 succeeded on its initial request and then on its
overdrive): no failed response was ever received, yet
`num_launched = 3 ≠ 1 + 1 + 0 = num_uploaded + num_inflight + num_failed`. -/
theorem accounting_identity_cex :
    Reachable (initSlab 2 3 c8cands) c8s5 ∧
      c8s5.numFailed = 0 ∧
      c8s5.numLaunched ≠ c8s5.numUploaded + c8s5.numInflight + c8s5.numFailed :=
  ⟨c8_reach, by decide, by decide⟩

/-- C8 amended: in every reachable slab-upload state,
`num_launched = num_uploaded + num_inflight + num_failed + num_duplicate`,
where `num_duplicate` counts the successful responses received for an
index that was already uploaded (those decrement `num_inflight` without
incrementing `num_uploaded` or the failed count). -/
theorem launched_accounting_identity (n k : Nat) (cands : List Uploader)
    (s : SlabUpload) (hU : k + n < U64)
    (hreach : Reachable (initSlab n k cands) s) :
    s.numLaunched = s.numUploaded + s.numInflight + s.numFailed + s.numDup :=
  ((reachable_facts hU hreach).1).launchedEq

/-- Witness for C8: the identity at the end of the duplicate-success trace
(3 = 1 + 1 + 0 + 1). -/
theorem launched_accounting_identity_witness :
    c8s5.numLaunched = c8s5.numUploaded + c8s5.numInflight + c8s5.numFailed + c8s5.numDup :=
  launched_accounting_identity 2 3 c8cands c8s5 (by decide) c8_reach

/-- C6: the interrupt wiring at the relaunch call site is INVERTED relative
to the claim (and to spec section 4.3).  `launch` returns
`interrupt = !req.overdrive && len(s.overdriving[idx]) == 0`, but the
collect loop binds this value to a variable named `overdriving` and
executes `if !overdriving { break }` — so the slab fails exactly when the
`overdriving` set for the index is NON-empty, and soft-continues when it
is empty.  First conjunct: a reachable run in which a non-overdrive
relaunch finds no candidate while the overdrive for its index is still in
flight — the claim says soft, the code breaks and the slab upload halts.
Second conjunct: a reachable run in which no overdrive was ever launched
for the index — the claim says fatal, the code soft-continues.  The
caller's variable name `overdriving` shows it expected the flag to mean
"an overdrive covers this index", which would implement the claim; the
callee returns the near-opposite `interrupt`. -/
theorem relaunch_break_inverted :
    (Reachable (initSlab 1 2 c6cands) c6sB ∧
        c6sB.halted = true ∧
        c6req.overdrive = false ∧
        pickCandidate c6s3 = none ∧
        c6s3.inflight.filter (fun r => r.overdrive) = [⟨true, 0, 1, 101⟩] ∧
        relaunchBreaks c6s3 c6req = true) ∧
      (Reachable (initSlab 1 1 [⟨0, 100⟩]) c6t2 ∧
        pickCandidate c6t2 = none ∧
        c6t2.inflight.filter (fun r => r.overdrive) = [] ∧
        odLookup c6t2.overdriving 0 = [] ∧
        relaunchBreaks c6t2 c6req = false) :=
  ⟨⟨c6_reach, by decide, by decide, by decide, by decide, by decide⟩,
    ⟨c6_soft_reach, by decide, by decide, by decide, by decide⟩⟩

/-- C4: `nextRequest` does not pick the not-yet-uploaded index with the
fewest overdrives.  `lowestNumOverdrives` is initialized to `math.MaxInt`
and never reassigned, so every not-yet-uploaded sector passes the
comparison and the last one in map iteration order wins: with shard 0
carrying no overdrives and shard 1 carrying one, iteration order `[0, 1]`
picks shard 1. -/
theorem nextRequest_ignores_overdrive_counts :
    nextSectorPick c4state [0, 1] = some 1 ∧
      (c4state.secAt 0).isUploaded = false ∧
      (c4state.secAt 1).isUploaded = false ∧
      (odLookup c4state.overdriving 0).length = 0 ∧
      (odLookup c4state.overdriving 1).length = 1 := by
  decide

/-- C3 counterexample: with an empty pool, one (fresh) contract and
`total_shards = 2`, `newUpload` fails with `errNotEnoughContracts`, yet
the pool is no longer empty — `refreshUploaders` ran first and spawned an
uploader for the contract. -/
theorem newUpload_side_effects_cex :
    (newUpload [] 2 [c3c] 0).2 = Except.error MgrErr.notEnoughContracts ∧
      (newUpload [] 2 [c3c] 0).1 = [⟨5, 1, 0, 10⟩] ∧
      (newUpload [] 2 [c3c] 0).1 ≠ [] := by
  refine ⟨?_, by decide, by decide⟩
  rfl

/-- C3 amended: with `len(contracts) < totalShards`, `newUpload` fails with
`errNotEnoughContracts` and returns no upload handle (no upload id is
minted), but the only side effect is exactly the `refreshUploaders` call
that already ran: the pool becomes the refreshed pool. -/
theorem newUpload_not_enough_contracts (pool : List MgrUploader) (totalShards : Nat)
    (cs : List Contract) (bh : Nat) (h : cs.length < totalShards) :
    newUpload pool totalShards cs bh
      = ((refreshUploaders pool cs bh).pool, Except.error MgrErr.notEnoughContracts) := by
  unfold newUpload
  rw [if_pos h]

/-- Witness for C3: the not-enough-contracts scenario of the spec
(one contract, two shards). -/
theorem newUpload_not_enough_contracts_witness :
    newUpload [] 2 [c3c] 0
      = ((refreshUploaders [] [c3c] 0).pool, Except.error MgrErr.notEnoughContracts) :=
  newUpload_not_enough_contracts [] 2 [c3c] 0 (by decide)

/-- C7 counterexample: with a `P90` value strictly between 0 and 1 the code
returns `(queue_len + 1) * p90`, not `(queue_len + 1) * max(p90, 1)` — the
substitution happens only at exactly 0. -/
theorem estimate_max_formula_cex :
    estimate 0 (1 / 2) = 1 / 2 ∧ estimateSpec 0 (1 / 2) = 1 ∧
      estimate 0 (1 / 2) ≠ estimateSpec 0 (1 / 2) := by
  norm_num [estimate, estimateSpec]

/-- C7 amended: `estimate` equals `(queue_len + 1) * max(p90, 1)` whenever
`p90` is 0 or at least 1 (which covers every integral-millisecond `P90`
value); in particular a fresh uploader with `P90() = 0` gets estimate
`queue_len + 1`. -/
theorem estimate_formula (queueLen : Nat) (p90 : ℚ) (h : p90 = 0 ∨ 1 ≤ p90) :
    estimate queueLen p90 = estimateSpec queueLen p90 ∧
      estimate queueLen 0 = (queueLen : ℚ) + 1 := by
  constructor
  · rcases h with h | h
    · subst h
      simp [estimate, estimateSpec]
    · have h0 : p90 ≠ 0 := by intro h0; rw [h0] at h; norm_num at h
      rw [estimate, estimateSpec, if_neg h0, max_eq_left h]
  · simp [estimate]

/-- Witness for C7: a queue of 2 requests and a 5 ms `P90`. -/
theorem estimate_formula_witness :
    estimate 2 5 = estimateSpec 2 5 ∧ estimate 2 0 = (2 : ℚ) + 1 :=
  estimate_formula 2 5 (by norm_num)

/-- With no renewal in the contract list, the `renewedTo` map is empty. -/
theorem renewedToLookup_none {cs : List Contract} (h : ∀ c ∈ cs, c.renewedFrom = 0)
    (f : Nat) : renewedToLookup cs f = none := by
  unfold renewedToLookup
  induction cs with
  | nil => rfl
  | cons c cs ih =>
    rw [List.foldl_cons, if_neg (by simp [h c (List.mem_cons_self c cs)])]
    exact ih (fun d hd => h d (List.mem_cons_of_mem c hd))

/-- One unfolding of the uploader loop when the head's contract has no
renewal. -/
theorem refreshLoop_cons_none (cs : List Contract) (bh : Nat) (u : MgrUploader)
    (rest : List MgrUploader) (tk : List Contract)
    (hnone : renewedToLookup cs u.fcid = none) :
    refreshLoop cs bh (u :: rest) tk
      = if tk.any (fun c => c.id == u.fcid) then
          ((({ u with bh := bh }) : MgrUploader) ::
              (refreshLoop cs bh rest (tk.filter (fun c => c.id != u.fcid))).1,
            (refreshLoop cs bh rest (tk.filter (fun c => c.id != u.fcid))).2.1,
            (refreshLoop cs bh rest (tk.filter (fun c => c.id != u.fcid))).2.2.1,
            (refreshLoop cs bh rest (tk.filter (fun c => c.id != u.fcid))).2.2.2)
        else
          ((refreshLoop cs bh rest tk).1, (refreshLoop cs bh rest tk).2.1,
            (refreshLoop cs bh rest tk).2.2.1 + 1, (refreshLoop cs bh rest tk).2.2.2) := by
  rw [refreshLoop, hnone]
  by_cases h : tk.any (fun c => c.id == u.fcid) = true
  · rw [if_pos h]
    rw [if_pos (by simp [h])]
    simp
  · rw [if_neg h]
    rw [if_neg (by simp [h])]

/-- Characterization of the uploader loop under a renewal-free contract
list: nothing is renewed, kept uploaders carry the new block height and
pairwise-distinct contract ids all drawn from `toKeep`, and the remaining
`toKeep` entries are exactly those whose id no kept uploader carries. -/
theorem refreshLoop_no_renewals (cs : List Contract) (bh : Nat)
    (hren : ∀ c ∈ cs, c.renewedFrom = 0) (pool : List MgrUploader) :
    ∀ tk : List Contract,
      (refreshLoop cs bh pool tk).2.2.2 = 0 ∧
        (∀ u ∈ (refreshLoop cs bh pool tk).1, u.bh = bh) ∧
        ((refreshLoop cs bh pool tk).1.map (fun u => u.fcid)).Nodup ∧
        (∀ u ∈ (refreshLoop cs bh pool tk).1,
          u.fcid ∈ tk.map (fun c => c.id)) ∧
        (refreshLoop cs bh pool tk).2.1
          = tk.filter
              (fun c => !(((refreshLoop cs bh pool tk).1.map (fun u => u.fcid)).contains c.id)) := by
  induction pool with
  | nil =>
    intro tk
    refine ⟨rfl, by simp [refreshLoop], by simp [refreshLoop], by simp [refreshLoop], ?_⟩
    simp [refreshLoop]
  | cons u rest ih =>
    intro tk
    rw [refreshLoop_cons_none cs bh u rest tk (renewedToLookup_none hren u.fcid)]
    by_cases h : tk.any (fun c => c.id == u.fcid) = true
    · rw [if_pos h]
      obtain ⟨ihren, ihbh, ihnd, ihmem, ihtk⟩ := ih (tk.filter (fun c => c.id != u.fcid))
      have hmemtk : u.fcid ∈ tk.map (fun c => c.id) := by
        rcases List.any_eq_true.mp h with ⟨c, hc, hcid⟩
        exact List.mem_map.mpr ⟨c, hc, by simpa using beq_iff_eq.mp hcid⟩
      have hfresh : ∀ v ∈ (refreshLoop cs bh rest
          (tk.filter (fun c => c.id != u.fcid))).1, v.fcid ≠ u.fcid := by
        intro v hv
        have hvmem := ihmem v hv
        rcases List.mem_map.mp hvmem with ⟨c, hc, hcid⟩
        have hne := (List.mem_filter.mp hc).2
        intro hcontra
        have hcu : c.id = u.fcid := hcid.trans hcontra
        rw [hcu] at hne
        simp at hne
      refine ⟨ihren, ?_, ?_, ?_, ?_⟩
      · intro v hv
        rcases List.mem_cons.mp hv with hv | hv
        · subst hv; rfl
        · exact ihbh v hv
      · rw [List.map_cons]
        refine List.Nodup.cons ?_ ihnd
        intro hcontra
        rcases List.mem_map.mp hcontra with ⟨v, hv, hvid⟩
        exact hfresh v hv hvid
      · intro v hv
        rcases List.mem_cons.mp hv with hv | hv
        · subst hv; exact hmemtk
        · have := ihmem v hv
          rcases List.mem_map.mp this with ⟨c, hc, hcid⟩
          exact List.mem_map.mpr ⟨c, (List.mem_filter.mp hc).1, hcid⟩
      · rw [ihtk, List.filter_filter]
        refine List.filter_congr ?_
        intro c _
        simp only [List.map_cons, List.contains_cons, Bool.not_or, bne]
        rw [Bool.and_comm]
    · rw [if_neg h]
      obtain ⟨ihren, ihbh, ihnd, ihmem, ihtk⟩ := ih tk
      exact ⟨ihren, ihbh, ihnd, ihmem, ihtk⟩

/-- The uploader loop is the identity on a pool of distinct-contract
uploaders at the current block height whose contracts are all in
`toKeep`. -/
theorem refreshLoop_identity (cs : List Contract) (bh : Nat)
    (hren : ∀ c ∈ cs, c.renewedFrom = 0) (pool : List MgrUploader) :
    ∀ tk : List Contract,
      (pool.map (fun u => u.fcid)).Nodup →
      (∀ u ∈ pool, u.bh = bh ∧ u.fcid ∈ tk.map (fun c => c.id)) →
      refreshLoop cs bh pool tk
        = (pool, tk.filter (fun c => !((pool.map (fun u => u.fcid)).contains c.id)),
            0, 0) := by
  induction pool with
  | nil =>
    intro tk _ _
    simp [refreshLoop]
  | cons u rest ih =>
    intro tk hnd hmem
    rw [refreshLoop_cons_none cs bh u rest tk (renewedToLookup_none hren u.fcid)]
    have hidtk : u.fcid ∈ tk.map (fun c => c.id) :=
      (hmem u (List.mem_cons_self u rest)).2
    have hany : tk.any (fun c => c.id == u.fcid) = true := by
      rcases List.mem_map.mp hidtk with ⟨c, hc, hcid⟩
      exact List.any_eq_true.mpr ⟨c, hc, by simpa using hcid⟩
    rw [if_pos hany]
    have hu1 : ({ u with bh := bh } : MgrUploader) = u := by
      have := (hmem u (List.mem_cons_self u rest)).1
      cases u
      simp_all
    have hndrest : (rest.map (fun u => u.fcid)).Nodup := by
      rw [List.map_cons] at hnd
      exact hnd.of_cons
    have hheadfresh : u.fcid ∉ rest.map (fun v => v.fcid) := by
      rw [List.map_cons] at hnd
      exact (List.nodup_cons.mp hnd).1
    have hmemrest : ∀ v ∈ rest, v.bh = bh ∧
        v.fcid ∈ (tk.filter (fun c => c.id != u.fcid)).map (fun c => c.id) := by
      intro v hv
      refine ⟨(hmem v (List.mem_cons_of_mem u hv)).1, ?_⟩
      have hvtk := (hmem v (List.mem_cons_of_mem u hv)).2
      rcases List.mem_map.mp hvtk with ⟨c, hc, hcid⟩
      have hvne : v.fcid ≠ u.fcid := by
        intro hcontra
        exact hheadfresh (hcontra ▸ List.mem_map.mpr ⟨v, hv, rfl⟩)
      refine List.mem_map.mpr ⟨c, List.mem_filter.mpr ⟨hc, ?_⟩, hcid⟩
      simpa using hcid ▸ hvne
    rw [ih (tk.filter (fun c => c.id != u.fcid)) hndrest hmemrest]
    rw [hu1, List.filter_filter]
    refine congrArg (fun l => ((u :: rest : List MgrUploader), l, 0, 0)) ?_
    refine List.filter_congr ?_
    intro c _
    simp only [List.map_cons, List.contains_cons, Bool.not_or, bne]
    rw [Bool.and_comm]

/-- The ids of `toKeep` are pairwise distinct. -/
theorem toKeepList_nodup_ids (cs : List Contract) :
    ((toKeepList cs).map (fun c => c.id)).Nodup := by
  suffices h : ∀ acc : List Contract, (acc.map (fun c => c.id)).Nodup →
      ((cs.foldl (fun acc c => acc.filter (fun d => d.id != c.id) ++ [c]) acc).map
        (fun c => c.id)).Nodup by
    exact h [] (by simp)
  induction cs with
  | nil => intro acc hacc; simpa using hacc
  | cons c cs ih =>
    intro acc hacc
    rw [List.foldl_cons]
    refine ih _ ?_
    rw [List.map_append]
    refine List.Nodup.append ?_ (by simp) ?_
    · exact hacc.sublist (List.Sublist.map _ (List.filter_sublist acc))
    · intro x hx hy
      simp at hy
      rcases List.mem_map.mp hx with ⟨d, hd, hdid⟩
      have := (List.mem_filter.mp hd).2
      rw [hy] at hdid
      simp [hdid] at this

/-- C9 counterexample: a contract list containing both a contract and its
renewal.  The first `refreshUploaders` call (empty pool) spawns uploaders
for both; the second call, with identical arguments, renews the uploader of
the old contract — it performs one renewal and the pool changes. -/
theorem refreshUploaders_idempotent_cex :
    (refreshUploaders (refreshUploaders [] [c9d, c9c] 5).pool [c9d, c9c] 5).renewed = 1 ∧
      (refreshUploaders (refreshUploaders [] [c9d, c9c] 5).pool [c9d, c9c] 5).pool
        ≠ (refreshUploaders [] [c9d, c9c] 5).pool := by
  exact ⟨by decide, by decide⟩

/-- C9 amended: `refreshUploaders` is idempotent for renewal-free contract
lists (every `RenewedFrom` zero): for any starting pool, an immediate
second call with the same `(contracts, block height)` stops no uploader,
renews no uploader, spawns no uploader, and leaves the pool exactly as the
first call left it.  (With a renewal in the list the counterexample shows
a second call can renew again.) -/
theorem refreshUploaders_idempotent_no_renewals (pool : List MgrUploader)
    (cs : List Contract) (bh : Nat) (hren : ∀ c ∈ cs, c.renewedFrom = 0) :
    refreshUploaders (refreshUploaders pool cs bh).pool cs bh
      = ⟨(refreshUploaders pool cs bh).pool, 0, 0, 0⟩ := by
  obtain ⟨h0ren, h0bh, h0nd, h0mem, h0tk⟩ :=
    refreshLoop_no_renewals cs bh hren pool (toKeepList cs)
  set r := refreshLoop cs bh pool (toKeepList cs) with hr
  set p1 := (refreshUploaders pool cs bh).pool with hp1
  have hp1eq : p1 = r.1 ++ r.2.1.map (fun c => newMgrUploader c bh) := rfl
  set keptF := r.1.map (fun u => u.fcid) with hkF
  -- facts about the combined pool after the first call
  have hp1map : p1.map (fun u => u.fcid)
      = keptF ++ (r.2.1.map (fun c => c.id)) := by
    rw [hp1eq, List.map_append, List.map_map]
    rfl
  have htknd := toKeepList_nodup_ids cs
  have hrem_ids : r.2.1.map (fun c => c.id)
      = ((toKeepList cs).filter (fun c => !(keptF.contains c.id))).map (fun c => c.id) := by
    rw [h0tk]
  have hnd1 : (p1.map (fun u => u.fcid)).Nodup := by
    rw [hp1map]
    refine List.Nodup.append h0nd ?_ ?_
    · rw [hrem_ids]
      exact htknd.sublist (List.Sublist.map _ (List.filter_sublist _))
    · intro x hx hy
      rw [hrem_ids] at hy
      rcases List.mem_map.mp hy with ⟨c, hc, hcid⟩
      have := (List.mem_filter.mp hc).2
      rw [hcid] at this
      simp [List.contains] at this
      exact this (by simpa [hkF] using hx)
  have hbh1 : ∀ u ∈ p1, u.bh = bh := by
    intro u hu
    rw [hp1eq] at hu
    rcases List.mem_append.mp hu with hu | hu
    · exact h0bh u hu
    · rcases List.mem_map.mp hu with ⟨c, _, hc⟩
      rw [← hc]; rfl
  have hmem1 : ∀ u ∈ p1, u.fcid ∈ (toKeepList cs).map (fun c => c.id) := by
    intro u hu
    rw [hp1eq] at hu
    rcases List.mem_append.mp hu with hu | hu
    · exact h0mem u hu
    · rcases List.mem_map.mp hu with ⟨c, hc, hceq⟩
      rw [h0tk] at hc
      refine List.mem_map.mpr ⟨c, (List.mem_filter.mp hc).1, by rw [← hceq]; rfl⟩
  have hloop2 := refreshLoop_identity cs bh hren p1 (toKeepList cs) hnd1
    (fun u hu => ⟨hbh1 u hu, hmem1 u hu⟩)
  have hempty : (toKeepList cs).filter
      (fun c => !((p1.map (fun u => u.fcid)).contains c.id)) = [] := by
    rw [List.filter_eq_nil_iff]
    intro c hc
    have hcmem : c.id ∈ p1.map (fun u => u.fcid) := by
      rw [hp1map]
      by_cases hkept : c.id ∈ keptF
      · exact List.mem_append.mpr (Or.inl hkept)
      · refine List.mem_append.mpr (Or.inr ?_)
        rw [hrem_ids]
        exact List.mem_map.mpr ⟨c, List.mem_filter.mpr ⟨hc, by simpa using hkept⟩, rfl⟩
    simp [hcmem]
  show (⟨(refreshLoop cs bh p1 (toKeepList cs)).1
        ++ (refreshLoop cs bh p1 (toKeepList cs)).2.1.map (fun c => newMgrUploader c bh),
      (refreshLoop cs bh p1 (toKeepList cs)).2.2.1,
      (refreshLoop cs bh p1 (toKeepList cs)).2.2.2,
      (refreshLoop cs bh p1 (toKeepList cs)).2.1.length⟩ : RefreshResult) = _
  rw [hloop2, hempty]
  simp

/-- Witness for C9: a renewal-free two-contract list over a pool holding a
stale uploader — the first call reshapes the pool, the second is a
no-op. -/
theorem refreshUploaders_idempotent_no_renewals_witness :
    refreshUploaders
        (refreshUploaders [⟨9, 7, 0, 1⟩] [⟨1, 10, 0, 100⟩, ⟨3, 12, 0, 50⟩] 5).pool
        [⟨1, 10, 0, 100⟩, ⟨3, 12, 0, 50⟩] 5
      = ⟨(refreshUploaders [⟨9, 7, 0, 1⟩] [⟨1, 10, 0, 100⟩, ⟨3, 12, 0, 50⟩] 5).pool,
          0, 0, 0⟩ :=
  refreshUploaders_idempotent_no_renewals [⟨9, 7, 0, 1⟩]
    [⟨1, 10, 0, 100⟩, ⟨3, 12, 0, 50⟩] 5 (by decide)

/-- C10: the millisecond divisors CAN be zero — a successful sector upload
measured at 500 µs (500000 ns) yields `d.Milliseconds() = 0`, so
`uploader.trackSectorUpload` computes `SectorSize / 0` and
`slabUpload.uploadSpeed` computes `bytes / 0` whenever under a millisecond
has elapsed since slab creation: Go integer division by zero, a runtime
panic (modeled as `none`). -/
theorem milliseconds_divisor_zero :
    millisecondsOf 500000 = 0 ∧
      trackSectorUploadSpeed 500000 = none ∧
      uploadSpeedGo 1 999999 = none := by
  refine ⟨by decide, ?_, ?_⟩ <;> rfl

end Renterd
